import Mathlib

/-!
Verification of the juicy-sounds audio core against its specification.

The development shallowly embeds the relevant parts of the repository:

* `Audio` — the buffer cache and playback pipeline of
  `src/AudioProcessor.ts` (class `WebAudioProcessor`): `loadSound`,
  `playWithPitch`, `playWithEffects`.  The bundled build contains a
  byte-identical copy of `loadSound`.
* `Synth` — the synthesizer of the `SynthEngine` class
  (`playSound`, `applyEnvelope`, `applyModulation`).
* `Pack` — the `SoundPack` class of the sound-pack module
  (`resolveSound`, `getBestFormat`, `play`, `createGradient`,
  `createHarmonicSet`).
* `Bundle` — the drifted copy of `SoundPack` found in the bundled build,
  whose `getBestFormat` fallback differs and whose `play` adds the
  lazy-load promise dedup (`loadingPromises`).

Machine reals of the source are modelled as exact rationals; audio
buffers are identified by the id of the fetch that decoded them, so that
reference equality of buffers is equality of ids.  Network fetch and
platform decode are oracles (`FetchOutcome`) supplied per call.
-/

deriving instance DecidableEq for Except

/-- A scheduled automation event on a Web Audio `AudioParam`
(`setValueAtTime` or `linearRampToValueAtTime`, value then time). -/
inductive GainEvent where
  | setValueAtTime (v : ℚ) (t : ℚ)
  | linearRampToValueAtTime (v : ℚ) (t : ℚ)
deriving DecidableEq, Repr

namespace Audio

/-- A decoded `AudioBuffer`, identified by the fetch/decode operation that
produced it: two distinct decodes yield two distinct object references. -/
abbrev Buffer := Nat

/-- The mutable state of a `WebAudioProcessor`: the insertion-ordered
`cache : Map<string, AudioBuffer>` (oldest entry first), the `maxCacheSize`
bound (the constructor fixes it to 100; the embedding keeps it as a field so
the cache bound can be stated for a general bound), and an instrumentation
counter of underlying fetch/decode operations performed. -/
structure ProcState where
  cache : List (String × Buffer)
  maxCacheSize : Nat
  fetchCount : Nat
deriving DecidableEq, Repr

/-- JS `Map.get` (and, via `Option.isSome`, `Map.has`) on an
insertion-ordered association list; also models JS object indexing. -/
def mapGet? {β : Type} (m : List (String × β)) (k : String) : Option β :=
  match m with
  | [] => none
  | (k', v) :: rest => if k' = k then some v else mapGet? rest k

/-- JS `Map.set`: overwrites in place when the key is present (JS `Map.set`
keeps the original insertion position), otherwise appends at the end. -/
def mapSet {β : Type} (m : List (String × β)) (k : String) (v : β) :
    List (String × β) :=
  match m with
  | [] => [(k, v)]
  | (k', v') :: rest =>
      if k' = k then (k, v) :: rest else (k', v') :: mapSet rest k v

/-- Outcome of the `fetch` + `decodeAudioData` part of `loadSound`,
treated as an oracle for the network and the platform decoder.  A
successful decode carries the fresh buffer it produced. -/
inductive FetchOutcome where
  | success (buf : Buffer)
  | httpError (status : Nat)
  | decodeError
deriving DecidableEq, Repr

/-- The errors `loadSound` can throw: the transport reported a non-success
status, or the payload was not decodable audio. -/
inductive LoadError where
  | loadFailed (status : Nat)
  | decodeFailed
deriving DecidableEq, Repr

/-- Synchronous prefix of `loadSound`: the cache check that runs before the
first `await`.  On a hit the call resolves immediately with the cached
buffer; on a miss the call suspends and the fetch is dispatched (counted
here).  The audio context is modelled as available. -/
def beginLoad (s : ProcState) (url : String) : Option Buffer × ProcState :=
  match mapGet? s.cache url with
  | some buf => (some buf, s)
  | none => (none, { s with fetchCount := s.fetchCount + 1 })

/-- The cache-management epilogue of `loadSound` after a successful decode:
`if (this.cache.size >= this.maxCacheSize)` delete the first key of the
map (its oldest-inserted entry), then `set` the new entry. -/
def insertBuffer (s : ProcState) (url : String) (buf : Buffer) : ProcState :=
  let c := if s.maxCacheSize ≤ s.cache.length then s.cache.tail else s.cache
  { s with cache := mapSet c url buf }

/-- Resumption of a suspended `loadSound` call once its fetch/decode
completes: a failure is rethrown (the `catch` logs and rethrows), a
success runs the cache-management epilogue and resolves the buffer. -/
def finishLoad (s : ProcState) (url : String) (outcome : FetchOutcome) :
    Except LoadError Buffer × ProcState :=
  match outcome with
  | .httpError st => (.error (.loadFailed st), s)
  | .decodeError => (.error .decodeFailed, s)
  | .success buf => (.ok buf, insertBuffer s url buf)

/-- The method `WebAudioProcessor.loadSound(url)`, one complete sequential run: cache
check, then fetch/decode with the given outcome, then cache insertion. -/
def loadSound (s : ProcState) (url : String) (outcome : FetchOutcome) :
    Except LoadError Buffer × ProcState :=
  match beginLoad s url with
  | (some buf, s') => (.ok buf, s')
  | (none, s') => finishLoad s' url outcome

/-- A freshly constructed processor with the given cache bound (the source
constructor fixes the bound to 100). -/
def initState (maxCacheSize : Nat) : ProcState :=
  { cache := [], maxCacheSize := maxCacheSize, fetchCount := 0 }

/-- A sequence of successful `loadSound` calls, each decoding the paired
buffer. -/
def loadSeq (s : ProcState) (pairs : List (String × Buffer)) : ProcState :=
  pairs.foldl (fun st p => (loadSound st p.1 (.success p.2)).2) s

/-- Event-loop interleaving of two `loadSound(url)` calls on a fresh
processor where the second call is issued while the first is still
awaiting its fetch/decode: both synchronous prefixes run (both miss the
empty cache and dispatch a fetch), then the first fetch completes decoding
buffer `bufA`, then the second completes decoding buffer `bufB`.  Returns
the two resolved results and the final state. -/
def concurrentLoadSound (url : String) (bufA bufB : Buffer) :
    Except LoadError Buffer × Except LoadError Buffer × ProcState :=
  let s0 := initState 100
  let (_, s1) := beginLoad s0 url
  let (_, s2) := beginLoad s1 url
  let (resA, s3) := finishLoad s2 url (.success bufA)
  let (resB, s4) := finishLoad s3 url (.success bufB)
  (resA, resB, s4)

/-- Per-call playback parameters (`PlaybackOptions` of AudioProcessor.ts);
an `Option` field models an absent (`undefined`) option. -/
structure PlaybackOptions where
  pitch : Option ℚ := none
  volume : Option ℚ := none
  detune : Option ℚ := none
  playbackRate : Option ℚ := none
deriving DecidableEq, Repr

/-- The idiom `Math.max(lo, Math.min(hi, x))`, the clamping idiom of the source. -/
def clampQ (lo hi x : ℚ) : ℚ := max lo (min hi x)

/-- The value assigned to `source.playbackRate.value`: left at its default
1.0, set to the symbolic power `2 ^ (clampedSemitones / 12)` by the
`pitch` option, or set directly by the `playbackRate` option (the last
assignment wins, exactly as the consecutive assignments in the source). -/
inductive RateSetting where
  | unset
  | pow2Semitones (clampedSemitones : ℚ)
  | direct (rate : ℚ)
deriving DecidableEq, Repr

/-- The configuration of the `AudioBufferSourceNode` built by the playback
pipeline: the playback-rate assignment and the optional detune value. -/
structure SourceConfig where
  rate : RateSetting
  detune : Option ℚ
deriving DecidableEq, Repr

/-- The gain-node control applied by a playback path: the scheduled
automation events, plus a direct `gain.value` assignment if any. -/
structure GainControl where
  scheduled : List GainEvent
  directValue : Option ℚ
deriving DecidableEq, Repr

/-- Whether a gain control contains any scheduled linear ramp. -/
def hasLinearRamp (g : GainControl) : Bool :=
  g.scheduled.any fun e =>
    match e with
    | .linearRampToValueAtTime _ _ => true
    | .setValueAtTime _ _ => false

/-- The option application of `playWithPitch` on the source node:
`pitch` is clamped to [-24, 24] and applied as the rate `2 ^ (p / 12)`;
`detune` is clamped to [-100, 100]; a `playbackRate` option is clamped to
[0.25, 4] and overwrites the pitch-derived rate. -/
def applyPlaybackOptions (opts : PlaybackOptions) : SourceConfig :=
  let r0 : RateSetting :=
    match opts.pitch with
    | some p => .pow2Semitones (clampQ (-24) 24 p)
    | none => .unset
  let d : Option ℚ := opts.detune.map (clampQ (-100) 100)
  let r1 : RateSetting :=
    match opts.playbackRate with
    | some pr => .direct (clampQ (1/4) 4 pr)
    | none => r0
  { rate := r1, detune := d }

/-- The method `WebAudioProcessor.playWithPitch` (graph aspects relevant to the
claims): the source-node configuration and the gain-node control.  The
volume is clamped to [0, 1] (default 1) and always scheduled as
`setValueAtTime(0, t)` followed by `linearRampToValueAtTime(target,
t + 0.01)` — the 10 ms anti-click ramp. -/
def playWithPitch (opts : PlaybackOptions) (now : ℚ) :
    SourceConfig × GainControl :=
  let target := clampQ 0 1 (opts.volume.getD 1)
  (applyPlaybackOptions opts,
   { scheduled := [.setValueAtTime 0 now,
                   .linearRampToValueAtTime target (now + 1/100)],
     directValue := none })

/-- Optional effect parameters (`EffectOptions` of AudioProcessor.ts). -/
structure EffectOptions where
  lowpass : Option ℚ := none
  highpass : Option ℚ := none
  delay : Option ℚ := none
deriving DecidableEq, Repr

/-- A node of the effects chain built by `playWithEffects`. -/
inductive EffectNode where
  | lowpassFilter (freq : ℚ)
  | highpassFilter (freq : ℚ)
  | delayMix (delayTime : ℚ) (feedbackGain : ℚ) (mixGain : ℚ)
deriving DecidableEq, Repr

/-- The effects chain of `playWithEffects`.  Each guard mirrors the JS
truthiness test (`effects.lowpass && ...`): an absent or zero value skips
the node. -/
def buildEffectsChain (effects : EffectOptions) : List EffectNode :=
  let lp : List EffectNode :=
    match effects.lowpass with
    | some f => if f ≠ 0 ∧ f < 20000 then [.lowpassFilter (max 20 f)] else []
    | none => []
  let hp : List EffectNode :=
    match effects.highpass with
    | some f => if f ≠ 0 ∧ 20 < f then [.highpassFilter (min 20000 f)] else []
    | none => []
  let dl : List EffectNode :=
    match effects.delay with
    | some d => if d ≠ 0 ∧ 0 < d then [.delayMix (min 5 d) (4/10) (5/10)] else []
    | none => []
  lp ++ hp ++ dl

/-- The method `WebAudioProcessor.playWithEffects` (graph aspects relevant to the
claims): the source node applies only the clamped `pitch`; the final gain
node is assigned `volume ?? 1` directly (`gain.value = ...`), with no
scheduled ramp. -/
def playWithEffects (effects : EffectOptions) (opts : PlaybackOptions) :
    SourceConfig × List EffectNode × GainControl :=
  let rate : RateSetting :=
    match opts.pitch with
    | some p => .pow2Semitones (clampQ (-24) 24 p)
    | none => .unset
  ({ rate := rate, detune := none },
   buildEffectsChain effects,
   { scheduled := [], directValue := some (opts.volume.getD 1) })

end Audio

namespace Synth

/-- ADSR envelope of a synth preset (seconds / level). -/
structure AudioEnvelope where
  attack : ℚ
  decay : ℚ
  sustain : ℚ
  release : ℚ
deriving DecidableEq, Repr

/-- Modulation kind of a synth preset. -/
inductive ModType where
  | vibrato
  | tremolo
  | off
deriving DecidableEq, Repr

/-- Modulation settings of a synth preset; `ModType.off` embeds the
source literal "none". -/
structure Modulation where
  type : ModType
  rate : ℚ
  depth : ℚ
deriving DecidableEq, Repr

/-- Filter settings of a synth preset. -/
structure FilterConfig where
  frequency : ℚ
  resonance : ℚ
deriving DecidableEq, Repr

/-- A synth preset (`SynthConfig` of the SynthEngine module). -/
structure SynthConfig where
  frequency : ℚ
  envelope : AudioEnvelope
  modulation : Option Modulation := none
  harmonics : Option (List ℚ) := none
  filter : Option FilterConfig := none
deriving DecidableEq, Repr

/-- Start/stop schedule of one oscillator node. -/
structure OscSchedule where
  startTime : ℚ
  stopTime : ℚ
deriving DecidableEq, Repr

/-- The method `SynthEngine.applyEnvelope`: hold 0 at the start time, linear ramp to
1 over the attack, to the sustain level over the decay, to 0 over the
release. -/
def applyEnvelope (env : AudioEnvelope) (startTime : ℚ) : List GainEvent :=
  [.setValueAtTime 0 startTime,
   .linearRampToValueAtTime 1 (startTime + env.attack),
   .linearRampToValueAtTime env.sustain (startTime + env.attack + env.decay),
   .linearRampToValueAtTime 0
     (startTime + env.attack + env.decay + env.release)]

/-- The scheduling performed by one `SynthEngine.playSound` invocation:
the envelope events on the master gain, the start/stop schedule of every
tone oscillator (base plus one per harmonic entry), and the schedule of
the modulation LFO when one is created. -/
structure SynthSchedule where
  masterGainEvents : List GainEvent
  toneOscs : List OscSchedule
  lfo : Option OscSchedule
deriving DecidableEq, Repr

/-- The method `SynthEngine.playSound`: all tone oscillators start at `now` and stop
at `now + attack + decay + release`; `applyModulation` (invoked when a
modulation of type other than "none" is configured) starts its LFO at
`now` and stops it at `now + 2` seconds. -/
def playSound (config : SynthConfig) (now : ℚ) : SynthSchedule :=
  let totalDuration := config.envelope.attack + config.envelope.decay +
    config.envelope.release
  let numOsc := 1 + (config.harmonics.getD []).length
  { masterGainEvents := applyEnvelope config.envelope now,
    toneOscs := List.replicate numOsc
      { startTime := now, stopTime := now + totalDuration },
    lfo :=
      match config.modulation with
      | some m => if m.type ≠ .off
          then some { startTime := now, stopTime := now + 2 } else none
      | none => none }

/-- Piecewise-linear interpretation of a scheduled gain automation, per
the Web Audio semantics of `setValueAtTime` and
`linearRampToValueAtTime`: starting from the value `prevV` held since
`prevT`, each set event jumps to its value at its time, each ramp event
interpolates linearly from the previous event to its value at its time.
Used to read the rendered gain trajectory off a schedule whose event
times are strictly increasing. -/
def gainAtFrom (prevT prevV : ℚ) (events : List GainEvent) (t : ℚ) : ℚ :=
  match events with
  | [] => prevV
  | .setValueAtTime v te :: rest =>
      if t < te then prevV else gainAtFrom te v rest t
  | .linearRampToValueAtTime v te :: rest =>
      if t < te then
        if t ≤ prevT then prevV
        else prevV + (v - prevV) * (t - prevT) / (te - prevT)
      else gainAtFrom te v rest t

/-- Gain value at time `t` under a schedule, starting from the Web Audio
default gain value 1 held since time 0. -/
def gainAt (events : List GainEvent) (t : ℚ) : ℚ :=
  gainAtFrom 0 1 events t

end Synth

namespace Pack

/-- Fallback strategy declared by a manifest; `FallbackStrategy.error`
embeds the source literal "error", etc. -/
inductive FallbackStrategy where
  | synth
  | silence
  | error
deriving DecidableEq, Repr

/-- The `formats` block of a manifest. -/
structure Formats where
  preferred : List String
  fallback : FallbackStrategy
deriving DecidableEq, Repr

/-- A manifest entry for one `category.action`: a bare filename, or a
structured record with a default file (`dflt` embeds the `default` key),
optional variants and optional pitch/volume defaults. -/
inductive SoundConfig where
  | file (name : String)
  | variant (dflt : String) (variants : Option (List String))
      (pitch : Option ℚ) (volume : Option ℚ)
deriving DecidableEq, Repr

/-- A sound-pack manifest (the fields the claims exercise). -/
structure Manifest where
  name : String
  sounds : List (String × List (String × SoundConfig))
  formats : Option Formats := none
deriving DecidableEq, Repr

/-- Number of characters matched by the regex `\.[^.]+$` of
`getBestFormat`, scanning the reversed name: the suffix after the last
dot, plus the dot itself, provided that suffix is non-empty. -/
def stripExtDrop (rev : List Char) (seen : Nat) : Option Nat :=
  match rev with
  | [] => none
  | c :: rest =>
      if c = '.' then (if seen = 0 then none else some (seen + 1))
      else stripExtDrop rest (seen + 1)

/-- The call `baseFileName.replace(/\.[^.]+$/, "")`: removes a trailing
".extension" (extension non-empty and dot-free) when one exists. -/
def stripExt (name : String) : String :=
  match stripExtDrop name.toList.reverse 0 with
  | none => name
  | some k => String.mk (name.toList.take (name.toList.length - k))

/-- The method `SoundPack.getBestFormat` (sound-pack module): strip any existing
extension, then return the first preferred format the runtime supports;
if none is supported, fall back to the first entry of the preferred list
(`preferred[0]`; on an empty list the JS template renders the literal
"undefined").  The probed support set is passed as `support`. -/
def getBestFormat (support : String → Bool) (m : Manifest)
    (baseFileName : String) : String :=
  let cleanName := stripExt baseFileName
  let preferred :=
    match m.formats with
    | some f => f.preferred
    | none => ["mp3", "ogg", "wav"]
  match preferred.find? support with
  | some fmt => cleanName ++ "." ++ fmt
  | none => cleanName ++ "." ++ preferred.headD "undefined"

/-- The errors a pack `play` can observe: a manifest lookup miss, or an
error propagated from the load/render pipeline. -/
inductive PackError where
  | soundNotFound (path : String)
  | loadFailed (status : Nat)
  | decodeFailed
  | engineUnavailable
deriving DecidableEq, Repr

/-- Character-level worker for the JS `path.split(".")`. -/
def splitDotAux (cs : List Char) (cur : List Char) : List (List Char) :=
  match cs with
  | [] => [cur.reverse]
  | c :: rest =>
      if c = '.' then cur.reverse :: splitDotAux rest []
      else splitDotAux rest (c :: cur)

/-- The JS `path.split(".")`: the dot-separated pieces of the string, with
empty pieces preserved (so the empty string splits to one empty piece). -/
def splitDot (s : String) : List String :=
  (splitDotAux s.toList []).map fun cs => String.mk cs

/-- The method `SoundPack.resolveSound`: split the path on "." into category and
action (action defaults to "default"), look the entry up in the manifest
and throw `Sound not found` when absent (a falsy entry — the empty
filename — also fails the `if (!soundConfig)` guard).  A bare filename
carries no per-sound defaults; a structured record carries its pitch and
volume defaults. -/
def resolveSound (m : Manifest) (path : String) :
    Except PackError (String × Audio.PlaybackOptions) :=
  let parts := splitDot path
  let category := parts.headD ""
  let action := (parts.drop 1).headD "default"
  match (Audio.mapGet? m.sounds category).bind
      (fun actions => Audio.mapGet? actions action) with
  | none => .error (.soundNotFound path)
  | some (.file f) =>
      if f = "" then .error (.soundNotFound path) else .ok (f, {})
  | some (.variant d _ p v) => .ok (d, { pitch := p, volume := v })

/-- The JS spread `{ ...defaultOptions, ...options }` under the
absent-as-`none` convention: a caller option wins whenever it is
defined.  The manifest defaults only ever carry pitch and volume. -/
def mergeOptions (defaults opts : Audio.PlaybackOptions) :
    Audio.PlaybackOptions :=
  { pitch := opts.pitch <|> defaults.pitch,
    volume := opts.volume <|> defaults.volume,
    detune := opts.detune,
    playbackRate := opts.playbackRate }

/-- The expression `this.manifest.formats?.fallback || "silence"`. -/
def fallbackOf (m : Manifest) : FallbackStrategy :=
  match m.formats with
  | some f => f.fallback
  | none => .silence

/-- The value a pack `play` resolves with: a started source node bound to
a decoded buffer, or the dummy empty object `{}` returned by the
silence/synth fallback (no node is built, nothing audible is rendered). -/
inductive PlaySource where
  | node (buf : Audio.Buffer)
  | dummyEmpty
deriving DecidableEq, Repr

/-- The `try` block of `SoundPack.play`: resolve the manifest entry, pick
the best format, build the pack-relative URL, merge the manifest defaults
under the caller options, and hand off to the processor render
(`playWithPitch`), whose load/render outcome is the oracle `render`. -/
def playBody (m : Manifest) (support : String → Bool) (basePath : String)
    (path : String) (opts : Audio.PlaybackOptions)
    (render : String → Audio.PlaybackOptions → Except PackError Audio.Buffer) :
    Except PackError PlaySource := do
  let (file, defaults) ← resolveSound m path
  let fileName := getBestFormat support m file
  let url := basePath ++ "/" ++ m.name ++ "/" ++ fileName
  let b ← render url (mergeOptions defaults opts)
  pure (.node b)

/-- The method `SoundPack.play`: on any failure of the try block, the manifest
fallback strategy governs the outcome — "error" rethrows the same error,
anything else ("silence" or "synth") resolves with the dummy source. -/
def play (m : Manifest) (support : String → Bool) (basePath : String)
    (path : String) (opts : Audio.PlaybackOptions)
    (render : String → Audio.PlaybackOptions → Except PackError Audio.Buffer) :
    Except PackError PlaySource :=
  match playBody m support basePath path opts render with
  | .ok s => .ok s
  | .error e =>
      if fallbackOf m = .error then .error e else .ok .dummyEmpty

/-- Gradient type of `createGradient` options. -/
inductive GradType where
  | pitch
  | filter
  | volume
deriving DecidableEq, Repr

/-- Options of `createGradient` (the fields the code reads). -/
structure GradientOptions where
  range : Option ℚ := none
  type : Option GradType := none
deriving DecidableEq, Repr

/-- One pre-bound callable produced by `createGradient` or
`createHarmonicSet`: it replays `path` with the recorded options. -/
structure PlayCall where
  path : String
  options : Audio.PlaybackOptions
deriving DecidableEq, Repr

/-- The method `SoundPack.createGradient`: `options.type || "pitch"` and
`options.range || 8` (JS truthiness: an absent or zero range falls back
to 8, an absent type falls back to "pitch").  Pitch gradients bind
`pitch = (i / (steps - 1) - 0.5) * range`; volume gradients bind
`volume = 0.3 + 0.7 * (i / (steps - 1))`; the remaining type ("filter",
not implemented) binds no options. -/
def createGradient (soundPath : String) (steps : Nat)
    (options : GradientOptions) : List PlayCall :=
  let t := options.type.getD .pitch
  let range : ℚ :=
    match options.range with
    | some r => if r = 0 then 8 else r
    | none => 8
  match t with
  | .pitch =>
      (List.range steps).map fun (i : ℕ) =>
        let position : ℚ := (i : ℚ) / ((steps : ℚ) - 1)
        { path := soundPath, options := { pitch := some ((position - 1/2) * range) } }
  | .volume =>
      (List.range steps).map fun (i : ℕ) =>
        { path := soundPath,
          options := { volume := some (3/10 + 7/10 * ((i : ℚ) / ((steps : ℚ) - 1))) } }
  | .filter =>
      (List.range steps).map fun _ => { path := soundPath, options := {} }

/-- Named musical scales accepted by `createHarmonicSet`. -/
inductive MusicalScale where
  | major
  | minor
  | pentatonic
  | chromatic
deriving DecidableEq, Repr

/-- The fixed semitone-interval tables of `createHarmonicSet`. -/
def scales : MusicalScale → List ℤ
  | .major => [0, 2, 4, 5, 7, 9, 11, 12]
  | .minor => [0, 2, 3, 5, 7, 8, 10, 12]
  | .pentatonic => [0, 2, 4, 7, 9, 12]
  | .chromatic => [0, 1, 2, 3, 4, 5, 6, 7, 8, 9, 10, 11, 12]

/-- The method `SoundPack.createHarmonicSet`: callable `i` is bound to
`pitch = intervals[i % intervals.length] + 12 * Math.floor(i / intervals.length)`
(the index is always in range, so `getD` never uses its default). -/
def createHarmonicSet (soundPath : String) (count : Nat)
    (scale : MusicalScale) : List PlayCall :=
  let intervals := scales scale
  (List.range count).map fun i =>
    let noteIndex := i % intervals.length
    let octave := i / intervals.length
    let pitch : ℤ := intervals.getD noteIndex 0 + (octave : ℤ) * 12
    { path := soundPath, options := { pitch := some (pitch : ℚ) } }

end Pack

namespace Bundle

/-- The copy of `SoundPack.getBestFormat` found in the bundled build: the default
preferred order is ["ogg", "mp3", "wav"], and when no preferred format is
supported it falls back to the hard-coded extension ".ogg" (not to
`preferred[0]`). -/
def getBestFormat (support : String → Bool) (m : Pack.Manifest)
    (baseFileName : String) : String :=
  let cleanName := Pack.stripExt baseFileName
  let preferred :=
    match m.formats with
    | some f => f.preferred
    | none => ["ogg", "mp3", "wav"]
  match preferred.find? support with
  | some fmt => cleanName ++ "." ++ fmt
  | none => cleanName ++ ".ogg"

/-- The lazy-loading state the bundled `SoundPack.play` adds on top of the
processor: the set of urls already loaded once, and the keys of the
in-flight load promises (`loadingPromises`). -/
structure LazyState where
  loadedSounds : List String
  loadingPromises : List String
  proc : Audio.ProcState
deriving DecidableEq, Repr

/-- The synchronous part of the lazy-load block of the bundled
`SoundPack.play` for an already-resolved url: when the url is neither
loaded nor in flight, it invokes `processor.loadSound(url)` (whose
synchronous prefix runs at once, dispatching the fetch on a cache miss)
and registers the promise under the url; when a promise for the url is
already in flight, it awaits that same promise and dispatches nothing.
Returns whether this call dispatched a new underlying load. -/
def playLoadSync (st : LazyState) (url : String) : Bool × LazyState :=
  if st.loadedSounds.contains url then (false, st)
  else if st.loadingPromises.contains url then (false, st)
  else
    let (_, p) := Audio.beginLoad st.proc url
    (true, { st with loadingPromises := url :: st.loadingPromises, proc := p })

/-- Resolution of the in-flight load for `url`: the fetch/decode
completes and the promise handlers run — on success the url is marked
loaded and the in-flight entry removed (`then` handler), on failure the
in-flight entry is removed and the error rethrown (`catch` handler). -/
def playLoadComplete (st : LazyState) (url : String)
    (outcome : Audio.FetchOutcome) :
    Except Audio.LoadError Audio.Buffer × LazyState :=
  let (res, p) := Audio.finishLoad st.proc url outcome
  match res with
  | .ok b =>
      (.ok b, { loadedSounds := url :: st.loadedSounds,
                loadingPromises := st.loadingPromises.erase url, proc := p })
  | .error e =>
      (.error e, { st with loadingPromises := st.loadingPromises.erase url,
                           proc := p })

/-- Result of the two-concurrent-plays schedule. -/
structure ConcurrentPlayResult where
  dispatchedA : Bool
  dispatchedB : Bool
  playedA : Except Audio.LoadError Audio.Buffer
  playedB : Except Audio.LoadError Audio.Buffer
  final : LazyState
deriving DecidableEq, Repr

/-- Event-loop schedule of two bundled `SoundPack.play` calls that resolve
to the same not-yet-loaded `url`, the second issued while the first is
still awaiting its load: both synchronous parts run (A dispatches the
load and registers the promise, B finds the promise in flight), the
single fetch/decode completes with `buf`, then each call resumes into
`processor.playWithPitch(url, ...)`, whose internal `loadSound(url)` now
hits the cache.  The oracles `dA`/`dB` are what a fresh fetch would
decode in those resumed calls; the played buffers must not depend on
them, because no further fetch happens. -/
def concurrentPlayLoad (url : String) (buf dA dB : Audio.Buffer) :
    ConcurrentPlayResult :=
  let st0 : LazyState :=
    { loadedSounds := [], loadingPromises := [], proc := Audio.initState 100 }
  let (dispA, st1) := playLoadSync st0 url
  let (dispB, st2) := playLoadSync st1 url
  let (_, st3) := playLoadComplete st2 url (.success buf)
  let (playedA, p4) := Audio.loadSound st3.proc url (.success dA)
  let (playedB, p5) := Audio.loadSound p4 url (.success dB)
  { dispatchedA := dispA, dispatchedB := dispB,
    playedA := playedA, playedB := playedB,
    final := { st3 with proc := p5 } }

end Bundle

/-! ## Helper lemmas about the cache map and the load operation -/

namespace Audio

theorem mapGet?_eq_none_iff {β : Type} {m : List (String × β)} {k : String} :
    mapGet? m k = none ↔ ∀ p ∈ m, p.1 ≠ k := by
  induction m with
  | nil => simp [mapGet?]
  | cons hd tl ih =>
      obtain ⟨k', v⟩ := hd
      by_cases h : k' = k
      · subst h
        simp [mapGet?]
      · simp [mapGet?, h, ih]

theorem mapSet_of_not_mem {β : Type} {m : List (String × β)} {k : String}
    (h : ∀ p ∈ m, p.1 ≠ k) (v : β) : mapSet m k v = m ++ [(k, v)] := by
  induction m with
  | nil => rfl
  | cons hd tl ih =>
      obtain ⟨k', v'⟩ := hd
      have hk : k' ≠ k := h (k', v') (by simp)
      simp only [mapSet, if_neg hk, List.cons_append]
      rw [ih (fun p hp => h p (by simp [hp]))]

theorem mapSet_length_le {β : Type} (m : List (String × β)) (k : String)
    (v : β) : (mapSet m k v).length ≤ m.length + 1 := by
  induction m with
  | nil => simp [mapSet]
  | cons hd tl ih =>
      obtain ⟨k', v'⟩ := hd
      by_cases h : k' = k
      · simp [mapSet, h]
      · simp only [mapSet, if_neg h, List.length_cons]
        omega

theorem loadSound_hit {s : ProcState} {url : String} {buf : Buffer}
    (o : FetchOutcome) (h : mapGet? s.cache url = some buf) :
    loadSound s url o = (.ok buf, s) := by
  simp [loadSound, beginLoad, h]

theorem loadSound_miss_success {s : ProcState} {url : String}
    (buf : Buffer) (h : mapGet? s.cache url = none) :
    loadSound s url (.success buf) =
      (.ok buf, insertBuffer { s with fetchCount := s.fetchCount + 1 } url buf) := by
  simp [loadSound, beginLoad, h, finishLoad]

theorem loadSound_miss_httpError {s : ProcState} {url : String}
    (st : Nat) (h : mapGet? s.cache url = none) :
    loadSound s url (.httpError st) =
      (.error (.loadFailed st), { s with fetchCount := s.fetchCount + 1 }) := by
  simp [loadSound, beginLoad, h, finishLoad]

theorem loadSound_miss_decodeError {s : ProcState} {url : String}
    (h : mapGet? s.cache url = none) :
    loadSound s url .decodeError =
      (.error .decodeFailed, { s with fetchCount := s.fetchCount + 1 }) := by
  simp [loadSound, beginLoad, h, finishLoad]

theorem loadSound_max (s : ProcState) (url : String) (o : FetchOutcome) :
    (loadSound s url o).2.maxCacheSize = s.maxCacheSize := by
  cases hget : mapGet? s.cache url with
  | some buf => rw [loadSound_hit o hget]
  | none =>
      cases o with
      | httpError st => rw [loadSound_miss_httpError st hget]
      | decodeError => rw [loadSound_miss_decodeError hget]
      | success buf =>
          rw [loadSound_miss_success buf hget]
          simp [insertBuffer]

theorem loadSound_bound (s : ProcState) (hpos : 0 < s.maxCacheSize)
    (h : s.cache.length ≤ s.maxCacheSize) (url : String) (o : FetchOutcome) :
    (loadSound s url o).2.cache.length ≤ s.maxCacheSize := by
  cases hget : mapGet? s.cache url with
  | some buf => rw [loadSound_hit o hget]; exact h
  | none =>
      cases o with
      | httpError st => rw [loadSound_miss_httpError st hget]; exact h
      | decodeError => rw [loadSound_miss_decodeError hget]; exact h
      | success buf =>
          rw [loadSound_miss_success buf hget]
          unfold insertBuffer
          by_cases hev : s.maxCacheSize ≤ s.cache.length
          · have h1 := mapSet_length_le s.cache.tail url buf
            have h2 : s.cache.tail.length = s.cache.length - 1 :=
              List.length_tail _
            simp only [if_pos hev]
            simp only at h1 ⊢
            omega
          · have h1 := mapSet_length_le s.cache url buf
            have h2 : s.cache.length < s.maxCacheSize := lt_of_not_le hev
            simp only [if_neg hev]
            simp only at h1 ⊢
            omega

theorem loadSeq_nil (s : ProcState) : loadSeq s [] = s := rfl

theorem loadSeq_cons (s : ProcState) (p : String × Buffer)
    (ps : List (String × Buffer)) :
    loadSeq s (p :: ps) = loadSeq (loadSound s p.1 (.success p.2)).2 ps := rfl

theorem loadSeq_append (s : ProcState) (a b : List (String × Buffer)) :
    loadSeq s (a ++ b) = loadSeq (loadSeq s a) b := by
  simp [loadSeq, List.foldl_append]

theorem loadSeq_max (s : ProcState) (ps : List (String × Buffer)) :
    (loadSeq s ps).maxCacheSize = s.maxCacheSize := by
  induction ps generalizing s with
  | nil => rfl
  | cons p rest ih => rw [loadSeq_cons, ih, loadSound_max]

theorem loadSeq_bound (s : ProcState) (ps : List (String × Buffer))
    (hpos : 0 < s.maxCacheSize) (h : s.cache.length ≤ s.maxCacheSize) :
    (loadSeq s ps).cache.length ≤ s.maxCacheSize := by
  induction ps generalizing s with
  | nil => exact h
  | cons p rest ih =>
      rw [loadSeq_cons]
      have hmax := loadSound_max s p.1 (.success p.2)
      have hb := loadSound_bound s hpos h p.1 (.success p.2)
      have := ih (loadSound s p.1 (.success p.2)).2 (hmax ▸ hpos) (hmax ▸ hb)
      rwa [hmax] at this

theorem loadSound_fresh_cache {s : ProcState} {url : String}
    (buf : Buffer) (h : mapGet? s.cache url = none) :
    (loadSound s url (.success buf)).2.cache =
      (if s.maxCacheSize ≤ s.cache.length then s.cache.tail else s.cache)
        ++ [(url, buf)] := by
  rw [loadSound_miss_success buf h]
  unfold insertBuffer
  have hfresh : ∀ p ∈ s.cache, p.1 ≠ url := mapGet?_eq_none_iff.mp h
  by_cases hev : s.maxCacheSize ≤ s.cache.length
  · have htail : ∀ p ∈ s.cache.tail, p.1 ≠ url := fun p hp =>
      hfresh p (List.mem_of_mem_tail hp)
    simp [hev, mapSet_of_not_mem htail]
  · simp [hev, mapSet_of_not_mem hfresh]

theorem loadSeq_below_cap (s : ProcState) (ps : List (String × Buffer))
    (hnd : (s.cache.map Prod.fst ++ ps.map Prod.fst).Nodup)
    (hlen : s.cache.length + ps.length ≤ s.maxCacheSize) :
    (loadSeq s ps).cache = s.cache ++ ps := by
  induction ps generalizing s with
  | nil => simp [loadSeq_nil]
  | cons p rest ih =>
      obtain ⟨u, b⟩ := p
      rw [loadSeq_cons]
      have hfresh : mapGet? s.cache u = none := by
        rw [mapGet?_eq_none_iff]
        intro q hq hcontra
        have hql : q.1 ∈ s.cache.map Prod.fst := List.mem_map_of_mem _ hq
        have hpl : u ∈ ((u, b) :: rest).map Prod.fst := by simp
        exact (List.nodup_append.mp hnd).2.2 hql (hcontra ▸ hpl)
      have hlt : ¬ s.maxCacheSize ≤ s.cache.length := by
        simp only [List.length_cons] at hlen; omega
      have hcache : (loadSound s u (.success b)).2.cache
          = s.cache ++ [(u, b)] := by
        rw [loadSound_fresh_cache b hfresh, if_neg hlt]
      have hmax := loadSound_max s u (.success b)
      have hrec := ih (loadSound s u (.success b)).2 ?_ ?_
      · rw [hrec, hcache]
        simp
      · rw [hcache]
        simpa using hnd
      · rw [hcache, hmax]
        simp only [List.length_append, List.length_cons, List.length_nil]
          at hlen ⊢
        omega

end Audio

/-! ## Claim theorems -/

/-- C1, counterexample: `WebAudioProcessor.loadSound` itself performs no
in-flight deduplication — on a fresh processor, a second `loadSound("u")`
issued while the first is still pending dispatches a second underlying
fetch/decode (the instrumented count reaches 2), and the two calls
resolve to the two distinct decoded buffers, not to one shared
reference. -/
theorem c1_loadSound_no_dedup :
    (Audio.concurrentLoadSound "u" 0 1).2.2.fetchCount = 2 ∧
    (Audio.concurrentLoadSound "u" 0 1).1 = .ok 0 ∧
    (Audio.concurrentLoadSound "u" 0 1).2.1 = .ok 1 ∧
    (0 : Audio.Buffer) ≠ 1 := by
  refine ⟨rfl, rfl, rfl, by decide⟩

/-- C1, amended: concurrent load deduplication holds one layer up, in the
bundled `SoundPack.play` — for every url, when a second play-level load of
`url` is issued while the first is still pending, only the first call
dispatches an underlying `processor.loadSound` (exactly one fetch/decode
in total), and both calls play the same decoded buffer, whatever buffers
further fetches would have produced. -/
theorem c1_pack_play_dedup (url : String) (buf dA dB : Audio.Buffer) :
    (Bundle.concurrentPlayLoad url buf dA dB).dispatchedA = true ∧
    (Bundle.concurrentPlayLoad url buf dA dB).dispatchedB = false ∧
    (Bundle.concurrentPlayLoad url buf dA dB).playedA = .ok buf ∧
    (Bundle.concurrentPlayLoad url buf dA dB).playedB = .ok buf ∧
    (Bundle.concurrentPlayLoad url buf dA dB).final.proc.fetchCount = 1 := by
  simp [Bundle.concurrentPlayLoad, Bundle.playLoadSync, Bundle.playLoadComplete,
    Audio.beginLoad, Audio.finishLoad, Audio.loadSound, Audio.insertBuffer,
    Audio.mapGet?, Audio.mapSet, Audio.initState]

/-- C2: with cache bound `N > 0` (the source fixes `N = 100`), (i) no
sequence of successful loads ever leaves more than `N` cached entries;
(ii) a cache hit returns the cached buffer and leaves the cache untouched
(insertion order is never refreshed — FIFO, not LRU); (iii) whenever an
insert finds the cache full, exactly the single oldest-inserted entry is
evicted; (iv) after `N + 1` distinct successful loads from a fresh
processor the cache holds exactly the last `N` entries — `N` entries in
all, with the very first loaded URL absent. -/
theorem c2_cache_fifo_bound (N : ℕ) (hN : 0 < N) :
    (∀ ps : List (String × Audio.Buffer),
        (Audio.loadSeq (Audio.initState N) ps).cache.length ≤ N) ∧
    (∀ (s : Audio.ProcState) (url : String) (buf : Audio.Buffer)
        (o : Audio.FetchOutcome), Audio.mapGet? s.cache url = some buf →
        Audio.loadSound s url o = (.ok buf, s)) ∧
    (∀ (s : Audio.ProcState) (url : String) (buf : Audio.Buffer),
        Audio.mapGet? s.cache url = none →
        s.maxCacheSize ≤ s.cache.length →
        (Audio.loadSound s url (.success buf)).2.cache
          = s.cache.tail ++ [(url, buf)]) ∧
    (∀ ps : List (String × Audio.Buffer), ps.length = N + 1 →
        (ps.map Prod.fst).Nodup →
        (Audio.loadSeq (Audio.initState N) ps).cache = ps.tail ∧
        (Audio.loadSeq (Audio.initState N) ps).cache.length = N ∧
        ∀ p0 ∈ ps.head?,
          Audio.mapGet? (Audio.loadSeq (Audio.initState N) ps).cache p0.1
            = none) := by
  refine ⟨?_, ?_, ?_, ?_⟩
  · intro ps
    exact Audio.loadSeq_bound (Audio.initState N) ps hN (by simp [Audio.initState])
  · intro s url buf o h
    exact Audio.loadSound_hit o h
  · intro s url buf hmiss hfull
    rw [Audio.loadSound_fresh_cache buf hmiss, if_pos hfull]
  · intro ps hlen hnd
    obtain ⟨M, rfl⟩ : ∃ M, N = M + 1 := ⟨N - 1, by omega⟩
    obtain ⟨p0, rest, rfl⟩ : ∃ p0 rest, ps = p0 :: rest := by
      cases ps with
      | nil => simp at hlen
      | cons a l => exact ⟨a, l, rfl⟩
    have hrest : rest.length = M + 1 := by simpa using hlen
    have hdropLen : (rest.drop M).length = 1 := by
      simp [List.length_drop]; omega
    obtain ⟨plast, hlast⟩ := List.length_eq_one.mp hdropLen
    have hrestSplit : rest = rest.take M ++ [plast] := by
      conv_lhs => rw [← List.take_append_drop M rest]
      rw [hlast]
    have hdecomp : p0 :: rest = (p0 :: rest.take M) ++ [plast] := by
      conv_lhs => rw [hrestSplit]
      rfl
    have hndSplit : (((p0 :: rest.take M) ++ [plast]).map Prod.fst).Nodup := by
      rw [← hdecomp]; exact hnd
    rw [List.map_append, List.nodup_append] at hndSplit
    obtain ⟨hndA, _, hdisj⟩ := hndSplit
    have htakeLen : (p0 :: rest.take M).length = M + 1 := by
      simp [List.length_take]; omega
    have hcacheA :
        (Audio.loadSeq (Audio.initState (M + 1)) (p0 :: rest.take M)).cache
          = p0 :: rest.take M := by
      have := Audio.loadSeq_below_cap (Audio.initState (M + 1))
        (p0 :: rest.take M)
        (by simpa [Audio.initState] using hndA)
        (by simp [Audio.initState, htakeLen])
      simpa [Audio.initState] using this
    have hmaxA :
        (Audio.loadSeq (Audio.initState (M + 1)) (p0 :: rest.take M)).maxCacheSize
          = M + 1 := by
      rw [Audio.loadSeq_max]; rfl
    have hmissLast :
        Audio.mapGet?
          (Audio.loadSeq (Audio.initState (M + 1)) (p0 :: rest.take M)).cache
          plast.1 = none := by
      rw [hcacheA, Audio.mapGet?_eq_none_iff]
      intro q hq hcontra
      exact hdisj (List.mem_map_of_mem Prod.fst hq) (by simp [hcontra])
    have hfinal :
        Audio.loadSeq (Audio.initState (M + 1)) (p0 :: rest)
          = (Audio.loadSound
              (Audio.loadSeq (Audio.initState (M + 1)) (p0 :: rest.take M))
              plast.1 (.success plast.2)).2 := by
      conv_lhs => rw [hdecomp]
      rw [Audio.loadSeq_append]
      rfl
    have hcacheFinal :
        (Audio.loadSeq (Audio.initState (M + 1)) (p0 :: rest)).cache = rest := by
      rw [hfinal, Audio.loadSound_fresh_cache plast.2 hmissLast,
        if_pos (by rw [hcacheA, hmaxA, htakeLen])]
      rw [hcacheA]
      simpa using hrestSplit.symm
    refine ⟨hcacheFinal, by rw [hcacheFinal]; exact hrest, ?_⟩
    intro q hq
    simp only [List.head?_cons, Option.mem_def, Option.some.injEq] at hq
    subst hq
    rw [hcacheFinal, Audio.mapGet?_eq_none_iff]
    intro r hr hcontra
    have h1 : (p0.1 :: rest.map Prod.fst).Nodup := by
      rw [List.map_cons] at hnd; exact hnd
    exact (List.nodup_cons.mp h1).1
      (hcontra ▸ List.mem_map_of_mem Prod.fst hr)

/-- C2, witness: the bound and FIFO scenario evaluated at bound 2 with the
three distinct loads a, b, c. -/
theorem c2_cache_fifo_bound_witness :
    (Audio.loadSeq (Audio.initState 2) [("a", 0), ("b", 1), ("c", 2)]).cache
      = [("b", 1), ("c", 2)] ∧
    (Audio.loadSeq (Audio.initState 2) [("a", 0), ("b", 1), ("c", 2)]).cache.length
      = 2 := by
  have h := (c2_cache_fifo_bound 2 (by decide)).2.2.2
    [("a", 0), ("b", 1), ("c", 2)] (by decide) (by decide)
  exact ⟨h.1, h.2.1⟩

/-- C10: when `loadSound` fails for an uncached url — non-success
transport status or undecodable payload — the error is rethrown, the
cache is left entirely unchanged (nothing inserted, nothing evicted), and
a subsequent `loadSound` of the same url performs a fresh fetch (the
fetch counter advances again) and can succeed: failures are never
negatively cached. -/
theorem c10_load_failure_not_cached (s : Audio.ProcState) (url : String)
    (st : ℕ) (b : Audio.Buffer)
    (hmiss : Audio.mapGet? s.cache url = none) :
    (Audio.loadSound s url (.httpError st)).1 = .error (.loadFailed st) ∧
    (Audio.loadSound s url .decodeError).1 = .error .decodeFailed ∧
    (Audio.loadSound s url (.httpError st)).2.cache = s.cache ∧
    (Audio.loadSound s url .decodeError).2.cache = s.cache ∧
    (Audio.loadSound s url (.httpError st)).2.fetchCount = s.fetchCount + 1 ∧
    (Audio.loadSound (Audio.loadSound s url (.httpError st)).2 url
        (.success b)).1 = .ok b ∧
    (Audio.loadSound (Audio.loadSound s url (.httpError st)).2 url
        (.success b)).2.fetchCount = s.fetchCount + 2 := by
  refine ⟨?_, ?_, ?_, ?_, ?_, ?_, ?_⟩
  · rw [Audio.loadSound_miss_httpError st hmiss]
  · rw [Audio.loadSound_miss_decodeError hmiss]
  · rw [Audio.loadSound_miss_httpError st hmiss]
  · rw [Audio.loadSound_miss_decodeError hmiss]
  · rw [Audio.loadSound_miss_httpError st hmiss]
  · rw [Audio.loadSound_miss_httpError st hmiss]
    show (Audio.loadSound
        { cache := s.cache, maxCacheSize := s.maxCacheSize,
          fetchCount := s.fetchCount + 1 } url (.success b)).1 = .ok b
    rw [@Audio.loadSound_miss_success
      { cache := s.cache, maxCacheSize := s.maxCacheSize,
        fetchCount := s.fetchCount + 1 } url b hmiss]
  · rw [Audio.loadSound_miss_httpError st hmiss]
    show (Audio.loadSound
        { cache := s.cache, maxCacheSize := s.maxCacheSize,
          fetchCount := s.fetchCount + 1 } url (.success b)).2.fetchCount
      = s.fetchCount + 2
    rw [@Audio.loadSound_miss_success
      { cache := s.cache, maxCacheSize := s.maxCacheSize,
        fetchCount := s.fetchCount + 1 } url b hmiss]
    simp [Audio.insertBuffer]

/-- C10, witness: the failure contract evaluated on a fresh processor at
url u with status 404 and follow-up buffer 5. -/
theorem c10_load_failure_not_cached_witness :
    (Audio.loadSound (Audio.initState 3) "u" (.httpError 404)).1
      = .error (.loadFailed 404) ∧
    (Audio.loadSound (Audio.initState 3) "u" (.httpError 404)).2.cache = [] ∧
    (Audio.loadSound (Audio.loadSound (Audio.initState 3) "u"
        (.httpError 404)).2 "u" (.success 5)).1 = .ok 5 := by
  have h := c10_load_failure_not_cached (Audio.initState 3) "u" 404 5 (by decide)
  exact ⟨h.1, h.2.2.1, h.2.2.2.2.2.1⟩

/-- C3: every failure inside the try block of `SoundPack.play` — a sound
name absent from the manifest included — is governed by the fallback
strategy of the pack: with "error" the very same error is rethrown to the
caller, with "silence" or "synth" the call resolves successfully with the
dummy source (no node built, nothing rendered).  A resolution failure is
one such try-block failure. -/
theorem c3_fallback_strategy (m : Pack.Manifest) (support : String → Bool)
    (basePath path : String) (opts : Audio.PlaybackOptions)
    (render : String → Audio.PlaybackOptions →
      Except Pack.PackError Audio.Buffer) :
    (∀ e, Pack.playBody m support basePath path opts render = .error e →
        (Pack.fallbackOf m = .error →
          Pack.play m support basePath path opts render = .error e) ∧
        ((Pack.fallbackOf m = .silence ∨ Pack.fallbackOf m = .synth) →
          Pack.play m support basePath path opts render = .ok .dummyEmpty)) ∧
    (∀ e, Pack.resolveSound m path = .error e →
        Pack.playBody m support basePath path opts render = .error e) := by
  constructor
  · intro e hbody
    constructor
    · intro hfb
      simp [Pack.play, hbody, hfb]
    · intro hfb
      have hne : Pack.fallbackOf m ≠ .error := by
        rcases hfb with h | h <;> simp [h]
      simp [Pack.play, hbody, hne]
  · intro e hres
    unfold Pack.playBody
    rw [hres]
    rfl

/-- C3, witness: a manifest with fallback "silence" and a missing sound
name resolves to the dummy source without throwing. -/
theorem c3_fallback_strategy_witness :
    Pack.play
      { name := "p", sounds := [("click", [("default", .file "click_001")])],
        formats := some { preferred := ["ogg"], fallback := .silence } }
      (fun _ => true) "/sounds" "missing" { } (fun _ _ => .ok 0)
      = .ok .dummyEmpty := by
  have h := c3_fallback_strategy
    { name := "p", sounds := [("click", [("default", .file "click_001")])],
      formats := some { preferred := ["ogg"], fallback := .silence } }
    (fun _ => true) "/sounds" "missing" { } (fun _ _ => .ok 0)
  exact (h.1 (.soundNotFound "missing") rfl).2 (Or.inl rfl)

/-- A helper: `find?` returns the element at the first index satisfying
the predicate. -/
theorem find?_eq_some_of_first {α : Type} (p : α → Bool) (l : List α)
    (d : α) (i : ℕ) (hi : i < l.length) (hp : p (l.getD i d) = true)
    (hbefore : ∀ j : ℕ, j < i → p (l.getD j d) = false) :
    l.find? p = some (l.getD i d) := by
  induction l generalizing i with
  | nil => exact absurd hi (by simp)
  | cons a tl ih =>
      cases i with
      | zero =>
          have hpa : p a = true := hp
          rw [List.find?_cons_of_pos _ hpa]
          rfl
      | succ n =>
          have ha : p a = false := hbefore 0 (Nat.succ_pos n)
          rw [List.find?_cons_of_neg _ (by simp [ha])]
          exact ih n (Nat.lt_of_succ_lt_succ hi) hp
            (fun j hj => hbefore (j + 1) (Nat.succ_lt_succ hj))

/-- C4, counterexample: in the bundled copy of `getBestFormat`, when no
preferred format is supported the result uses the hard-coded extension
"ogg", not the first entry of the preferred list: with nothing supported
and preferred list [mp3, wav] the claim demands "click.mp3", but the code
returns "click.ogg". -/
theorem c4_bundle_fallback_counterexample :
    Bundle.getBestFormat (fun _ => false)
      { name := "p", sounds := [],
        formats := some { preferred := ["mp3", "wav"], fallback := .silence } }
      "click" = "click.ogg" ∧ ("click.ogg" : String) ≠ "click.mp3" := by
  exact ⟨rfl, by decide⟩

/-- C4, amended: both copies of `getBestFormat` strip any existing
extension and return the first preferred format reported as supported;
when none is supported, the sound-pack module copy returns the base name
with the first entry of the preferred list, while the bundled copy
returns the base name with the hard-coded extension "ogg".  In
particular, with supported set ogg and wav and preferred order
[mp3, ogg, wav], bestFormat of "click" is "click.ogg". -/
theorem c4_best_format :
    (∀ (support : String → Bool) (m : Pack.Manifest) (fmts : Pack.Formats)
        (base : String), m.formats = some fmts →
      (∀ i : ℕ, i < fmts.preferred.length →
          support (fmts.preferred.getD i "") = true →
          (∀ j : ℕ, j < i → support (fmts.preferred.getD j "") = false) →
          Pack.getBestFormat support m base
            = Pack.stripExt base ++ "." ++ fmts.preferred.getD i "" ∧
          Bundle.getBestFormat support m base
            = Pack.stripExt base ++ "." ++ fmts.preferred.getD i "") ∧
      ((∀ f ∈ fmts.preferred, support f = false) →
          ((hne : fmts.preferred ≠ []) →
            Pack.getBestFormat support m base
              = Pack.stripExt base ++ "." ++ fmts.preferred.head hne) ∧
          Bundle.getBestFormat support m base
            = Pack.stripExt base ++ ".ogg")) ∧
    (∀ base : String,
      Pack.getBestFormat (fun f => f == "ogg" || f == "wav")
        { name := "p", sounds := [],
          formats := some { preferred := ["mp3", "ogg", "wav"],
                            fallback := .silence } } base
        = Pack.stripExt base ++ "." ++ "ogg") ∧
    Pack.getBestFormat (fun f => f == "ogg" || f == "wav")
      { name := "p", sounds := [],
        formats := some { preferred := ["mp3", "ogg", "wav"],
                          fallback := .silence } } "click" = "click.ogg" := by
  refine ⟨?_, ?_, rfl⟩
  · intro support m fmts base hm
    constructor
    · intro i hi hp hbefore
      have hfind :=
        find?_eq_some_of_first support fmts.preferred "" i hi hp hbefore
      constructor
      · unfold Pack.getBestFormat
        rw [hm]
        simp only [hfind]
      · unfold Bundle.getBestFormat
        rw [hm]
        simp only [hfind]
    · intro hnone
      have hfind : fmts.preferred.find? support = none :=
        List.find?_eq_none.mpr (fun x hx => by simp [hnone x hx])
      constructor
      · intro hne
        unfold Pack.getBestFormat
        rw [hm]
        simp only [hfind]
        rw [List.headD_eq_head?_getD, List.head?_eq_head hne]
        rfl
      · unfold Bundle.getBestFormat
        rw [hm]
        simp only [hfind]
  · intro base
    rfl

/-- C4, witness: the first-supported case applied at preferred
[mp3, ogg, wav] with ogg and wav supported, index 1. -/
theorem c4_best_format_witness :
    Pack.getBestFormat (fun f => f == "ogg" || f == "wav")
      { name := "pk", sounds := [],
        formats := some { preferred := ["mp3", "ogg", "wav"],
                          fallback := .silence } } "click" = "click.ogg" := by
  have hb : ∀ j : ℕ, j < 1 →
      (fun f => f == "ogg" || f == "wav")
        ((["mp3", "ogg", "wav"] : List String).getD j "") = false := by
    intro j hj
    have hj0 : j = 0 := by omega
    subst hj0
    decide
  have h := ((c4_best_format.1 (fun f => f == "ogg" || f == "wav")
    { name := "pk", sounds := [],
      formats := some { preferred := ["mp3", "ogg", "wav"],
                        fallback := .silence } }
    { preferred := ["mp3", "ogg", "wav"], fallback := .silence }
    "click" rfl).1 1 (by decide) (by decide) hb).1
  exact h.trans (by decide)

/-- C5, counterexample: for a vibrato preset with the envelope of the
spec (attack 0.01, decay 0.05, sustain 0.7, release 0.3), the modulation
LFO is stopped at t = 2 seconds, not at attack + decay + release = 0.36:
the modulation source does not stop together with the tone
oscillators. -/
theorem c5_lfo_stop_counterexample :
    (Synth.playSound
      { frequency := 440,
        envelope := { attack := 1/100, decay := 5/100,
                      sustain := 7/10, release := 3/10 },
        modulation := some { type := .vibrato, rate := 5, depth := 1/2 } }
      0).lfo = some { startTime := 0, stopTime := 2 } ∧
    (2 : ℚ) ≠ 1/100 + 5/100 + 3/10 := by
  constructor
  · simp [Synth.playSound]
  · norm_num

/-- C5, amended: `playSound` schedules the master gain at 0 at the start,
1 at start + attack, the sustain level at start + attack + decay and 0 at
start + attack + decay + release; every tone oscillator (base plus one
per harmonic) starts at the start time and stops exactly at
start + attack + decay + release; a configured modulation source starts
with them but is stopped at start + 2 seconds regardless of the
envelope.  For the spec preset the interpreted gain trajectory is 0 at
t = 0, 1 at t = 0.01, 0.7 at t = 0.06 and 0 at t = 0.36. -/
theorem c5_envelope_schedule (cfg : Synth.SynthConfig) (now : ℚ) :
    (Synth.playSound cfg now).masterGainEvents =
      [.setValueAtTime 0 now,
       .linearRampToValueAtTime 1 (now + cfg.envelope.attack),
       .linearRampToValueAtTime cfg.envelope.sustain
         (now + cfg.envelope.attack + cfg.envelope.decay),
       .linearRampToValueAtTime 0
         (now + cfg.envelope.attack + cfg.envelope.decay
           + cfg.envelope.release)] ∧
    (Synth.playSound cfg now).toneOscs.length
      = 1 + (cfg.harmonics.getD []).length ∧
    (∀ o ∈ (Synth.playSound cfg now).toneOscs,
        o.startTime = now ∧
        o.stopTime = now + (cfg.envelope.attack + cfg.envelope.decay
          + cfg.envelope.release)) ∧
    (∀ mo, cfg.modulation = some mo → mo.type ≠ .off →
        (Synth.playSound cfg now).lfo
          = some { startTime := now, stopTime := now + 2 }) ∧
    (Synth.gainAt (Synth.applyEnvelope
        { attack := 1/100, decay := 5/100, sustain := 7/10, release := 3/10 }
        0) 0 = 0 ∧
     Synth.gainAt (Synth.applyEnvelope
        { attack := 1/100, decay := 5/100, sustain := 7/10, release := 3/10 }
        0) (1/100) = 1 ∧
     Synth.gainAt (Synth.applyEnvelope
        { attack := 1/100, decay := 5/100, sustain := 7/10, release := 3/10 }
        0) (6/100) = 7/10 ∧
     Synth.gainAt (Synth.applyEnvelope
        { attack := 1/100, decay := 5/100, sustain := 7/10, release := 3/10 }
        0) (36/100) = 0) := by
  refine ⟨rfl, ?_, ?_, ?_,
    by norm_num [Synth.gainAt, Synth.gainAtFrom, Synth.applyEnvelope],
    by norm_num [Synth.gainAt, Synth.gainAtFrom, Synth.applyEnvelope],
    by norm_num [Synth.gainAt, Synth.gainAtFrom, Synth.applyEnvelope],
    by norm_num [Synth.gainAt, Synth.gainAtFrom, Synth.applyEnvelope]⟩
  · simp [Synth.playSound]
  · intro o ho
    have := List.eq_of_mem_replicate ho
    rw [this]
    exact ⟨rfl, by ring⟩
  · intro mo hmo hne
    simp [Synth.playSound, hmo, hne]

/-- C5, witness: the schedule facts applied to the vibrato spec preset at
start time 0. -/
theorem c5_envelope_schedule_witness :
    (Synth.playSound
      { frequency := 440,
        envelope := { attack := 1/100, decay := 5/100,
                      sustain := 7/10, release := 3/10 },
        modulation := some { type := .vibrato, rate := 5, depth := 1/2 } }
      0).lfo = some { startTime := 0, stopTime := 0 + 2 } := by
  exact (c5_envelope_schedule
    { frequency := 440,
      envelope := { attack := 1/100, decay := 5/100,
                    sustain := 7/10, release := 3/10 },
      modulation := some { type := .vibrato, rate := 5, depth := 1/2 } }
    0).2.2.2.1 { type := .vibrato, rate := 5, depth := 1/2 } rfl (by decide)

/-- C6, counterexample: the effects path applies no volume ramp at all —
`playWithEffects` assigns the gain value directly, and its gain control
contains no `linearRampToValueAtTime` event, contradicting the claim that
the 10 ms ramp is applied unconditionally on both paths. -/
theorem c6_effects_no_ramp_counterexample :
    (Audio.playWithEffects { } { volume := some (1/2) }).2.2
      = { scheduled := [], directValue := some (1/2) } ∧
    Audio.hasLinearRamp
      (Audio.playWithEffects { } { volume := some (1/2) }).2.2 = false := by
  exact ⟨rfl, rfl⟩

/-- C6, amended: `playWithPitch` always schedules the gain at 0 at start
and ramps linearly to the clamped target volume over exactly 10 ms
(0.01 s), for every option set — the ramp is unconditional on the pitch
path; `playWithEffects`, by contrast, assigns `volume ?? 1` to the gain
directly and schedules no ramp. -/
theorem c6_volume_ramp (opts : Audio.PlaybackOptions) (now : ℚ) :
    (Audio.playWithPitch opts now).2 =
      { scheduled := [.setValueAtTime 0 now,
          .linearRampToValueAtTime (Audio.clampQ 0 1 (opts.volume.getD 1))
            (now + 1/100)],
        directValue := none } ∧
    Audio.hasLinearRamp (Audio.playWithPitch opts now).2 = true ∧
    (∀ (effects : Audio.EffectOptions) (popts : Audio.PlaybackOptions),
      (Audio.playWithEffects effects popts).2.2 =
        { scheduled := [], directValue := some (popts.volume.getD 1) } ∧
      Audio.hasLinearRamp (Audio.playWithEffects effects popts).2.2
        = false) := by
  refine ⟨rfl, rfl, ?_⟩
  intro effects popts
  exact ⟨rfl, rfl⟩

/-- C7, counterexample: with an absent gradient type the code falls back
to "pitch" (`options.type || "pitch"`), so callable 0 of
`createGradient(p, 4, range 8)` is bound to pitch -4, not to an
unmodified replay as the claim states for an absent type. -/
theorem c7_absent_type_counterexample :
    (Pack.createGradient "p" 4 { range := some 8, type := none })[0]?
      = some { path := "p", options := { pitch := some (-4) } } ∧
    (some { path := "p", options := { pitch := some (-4) } }
        : Option Pack.PlayCall)
      ≠ some { path := "p", options := { } } := by
  constructor
  · simp only [Pack.createGradient, Option.getD]
    rw [List.getElem?_map, List.getElem?_range (by norm_num)]
    norm_num
  · simp

/-- C7, amended: with type "pitch" or type absent (absent falls back to
"pitch"), `createGradient` yields exactly `steps` callables with
`pitch = (i / (steps - 1) - 0.5) * range`; with type "volume" callable
`i` uses `volume = 0.3 + 0.7 * (i / (steps - 1))`; only the remaining
type ("filter") replays the sound unmodified.  An absent (or zero) range
falls back to 8, and `createGradient(path, 4, pitch range 8)` yields
pitches -4, -4/3, 4/3, 4. -/
theorem c7_gradient (path : String) (steps : ℕ) (hsteps : 2 ≤ steps)
    (r : ℚ) (hr : r ≠ 0) (t : Option Pack.GradType) :
    ((t = some .pitch ∨ t = none) →
      (Pack.createGradient path steps { range := some r, type := t }).length
        = steps ∧
      (∀ i : ℕ, i < steps →
        (Pack.createGradient path steps { range := some r, type := t })[i]?
          = some { path := path, options :=
              { pitch := some (((i : ℚ) / ((steps : ℚ) - 1) - 1/2) * r) } })) ∧
    (t = some .volume →
      (Pack.createGradient path steps { range := some r, type := t }).length
        = steps ∧
      (∀ i : ℕ, i < steps →
        (Pack.createGradient path steps { range := some r, type := t })[i]?
          = some { path := path, options :=
              { volume := some (3/10 + 7/10 * ((i : ℚ) / ((steps : ℚ) - 1))) } })) ∧
    (t = some .filter →
      (Pack.createGradient path steps { range := some r, type := t }).length
        = steps ∧
      (∀ i : ℕ, i < steps →
        (Pack.createGradient path steps { range := some r, type := t })[i]?
          = some { path := path, options := { } })) ∧
    Pack.createGradient path steps { range := none, type := t }
      = Pack.createGradient path steps { range := some 8, type := t } ∧
    (Pack.createGradient path 4 { range := some 8, type := some .pitch }).map
      (fun c => c.options.pitch)
      = [some (-4), some (-4/3), some (4/3), some 4] := by
  refine ⟨?_, ?_, ?_, ?_, ?_⟩
  · intro ht
    rcases ht with h | h <;> subst h <;>
      refine ⟨by simp [Pack.createGradient], ?_⟩ <;>
      intro i hi <;>
      · simp only [Pack.createGradient, Option.getD]
        rw [List.getElem?_map, List.getElem?_range hi]
        simp [hr]
  · intro h
    subst h
    refine ⟨by simp [Pack.createGradient], ?_⟩
    intro i hi
    simp only [Pack.createGradient, Option.getD]
    rw [List.getElem?_map, List.getElem?_range hi]
    simp [hr]
  · intro h
    subst h
    refine ⟨by simp [Pack.createGradient], ?_⟩
    intro i hi
    simp only [Pack.createGradient, Option.getD]
    rw [List.getElem?_map, List.getElem?_range hi]
    simp
  · norm_num [Pack.createGradient]
  · simp only [Pack.createGradient, Option.getD]
    rw [show List.range 4 = [0, 1, 2, 3] from rfl]
    norm_num

/-- C7, witness: the pitch-gradient facts applied at steps 4, range 8,
type "pitch", index 0. -/
theorem c7_gradient_witness :
    (Pack.createGradient "p" 4 { range := some 8, type := some .pitch }).length
      = 4 ∧
    (Pack.createGradient "p" 4 { range := some 8, type := some .pitch })[0]?
      = some { path := "p", options :=
          { pitch := some (((0 : ℚ) / ((4 : ℚ) - 1) - 1/2) * 8) } } := by
  have h := (c7_gradient "p" 4 (by norm_num) 8 (by norm_num)
    (some .pitch)).1 (Or.inl rfl)
  exact ⟨h.1, h.2 0 (by norm_num)⟩

/-- C8: `createHarmonicSet` returns exactly `count` callables, callable
`i` bound to `pitch = intervals[i % len] + 12 * (i / len)` over the fixed
interval table of the named scale; in particular the seven-step
pentatonic set (intervals length 6) wraps at index 6 to pitch 12. -/
theorem c8_harmonic_set (path : String) (count : ℕ)
    (scale : Pack.MusicalScale) :
    (Pack.createHarmonicSet path count scale).length = count ∧
    (∀ i : ℕ, i < count →
      (Pack.createHarmonicSet path count scale)[i]?
        = some { path := path, options := { pitch := some ((((
            Pack.scales scale).getD (i % (Pack.scales scale).length) 0
              + ((i / (Pack.scales scale).length : ℕ) : ℤ) * 12 : ℤ)) : ℚ) } }) ∧
    (Pack.createHarmonicSet path 7 .pentatonic).map (fun c => c.options.pitch)
      = [some 0, some 2, some 4, some 7, some 9, some 12, some 12] := by
  refine ⟨by simp [Pack.createHarmonicSet], ?_, ?_⟩
  · intro i hi
    simp only [Pack.createHarmonicSet]
    rw [List.getElem?_map, List.getElem?_range hi]
    rfl
  · simp only [Pack.createHarmonicSet]
    rw [show List.range 7 = [0, 1, 2, 3, 4, 5, 6] from rfl]
    norm_num [Pack.scales]

/-- C8, witness: the wraparound instance — index 6 of the seven-step
pentatonic set is bound to pitch 12. -/
theorem c8_harmonic_set_witness :
    (Pack.createHarmonicSet "p" 7 .pentatonic)[6]?
      = some { path := "p", options := { pitch := some 12 } } := by
  have h := (c8_harmonic_set "p" 7 .pentatonic).2.1 6 (by norm_num)
  refine h.trans ?_
  norm_num [Pack.scales]

/-- C9: the pitch option is clamped to [-24, 24] before the playback-rate
multiplier is applied — the clamp is total (out-of-range values are
silently clamped to the boundary, in-range values pass through, nothing
is rejected) and both playback paths store the multiplier
`2 ^ (clampedPitch / 12)`; in particular pitch 100 is clamped to 24 and
the resulting multiplier is `2 ^ (24 / 12) = 4`. -/
theorem c9_pitch_clamped (p : ℚ) :
    Audio.clampQ (-24) 24 p ∈ Set.Icc (-24 : ℚ) 24 ∧
    (-24 ≤ p → p ≤ 24 → Audio.clampQ (-24) 24 p = p) ∧
    (24 < p → Audio.clampQ (-24) 24 p = 24) ∧
    (p < -24 → Audio.clampQ (-24) 24 p = -24) ∧
    (∀ v d : Option ℚ,
      (Audio.applyPlaybackOptions
        { pitch := some p, volume := v, detune := d,
          playbackRate := none }).rate
        = .pow2Semitones (Audio.clampQ (-24) 24 p)) ∧
    (∀ (eff : Audio.EffectOptions) (v : Option ℚ),
      (Audio.playWithEffects eff { pitch := some p, volume := v }).1.rate
        = .pow2Semitones (Audio.clampQ (-24) 24 p)) ∧
    Audio.clampQ (-24) 24 100 = 24 ∧
    (2 : ℝ) ^ (((Audio.clampQ (-24) 24 100 : ℚ) : ℝ) / 12) = 4 := by
  have h100 : Audio.clampQ (-24) 24 100 = 24 := by
    norm_num [Audio.clampQ]
  refine ⟨?_, ?_, ?_, ?_, ?_, ?_, h100, ?_⟩
  · exact Set.mem_Icc.mpr
      ⟨le_max_left _ _, max_le (by norm_num) (min_le_left _ _)⟩
  · intro h1 h2
    unfold Audio.clampQ
    rw [min_eq_right h2, max_eq_right h1]
  · intro h
    unfold Audio.clampQ
    rw [min_eq_left (le_of_lt h), max_eq_right (by norm_num : (-24 : ℚ) ≤ 24)]
  · intro h
    unfold Audio.clampQ
    rw [min_eq_right (le_of_lt (lt_trans h (by norm_num))),
      max_eq_left (le_of_lt h)]
  · intro v d
    rfl
  · intro eff v
    rfl
  · rw [h100]
    rw [show (((24 : ℚ) : ℝ) / 12) = ((2 : ℕ) : ℝ) by norm_num,
      Real.rpow_natCast]
    norm_num

/-- C9, witness: the clamp applied at pitch 100, with the source
configuration recorded by the pipeline. -/
theorem c9_pitch_clamped_witness :
    Audio.clampQ (-24) 24 100 = 24 ∧
    (Audio.applyPlaybackOptions { pitch := some 100 }).rate
      = .pow2Semitones (Audio.clampQ (-24) 24 100) := by
  have h := c9_pitch_clamped 100
  exact ⟨h.2.2.1 (by norm_num), h.2.2.2.2.1 none none⟩
